import Mathlib

/-!
Shallow embedding of the `remotehttp` package of `toolexec-integrations`
(src/remotehttp/client.go and the SSE decoder in src/remotehttp), together
with proofs about the retry coordinator, request signing headers, the
Server-Sent-Events stream decoder and the stream merger.
-/

namespace Remotehttp

/-- Model of Go error values as seen through `errors.Is`.
`wrap inner msg` models `fmt.Errorf("%w: <suffix>", inner)`: only the single
`%w` argument stays in the unwrap chain; any error rendered through `%v`
is flattened into the message text and leaves the chain.  The sentinel
constructors model `remote.ErrRemoteNotAvailable`, `remote.ErrConnectionFailed`,
`remote.ErrRemoteExecutionFailed`, `context.Canceled` and
`context.DeadlineExceeded`; `errMsg` models an opaque error value. -/
inductive GoErr where
  | errRemoteNotAvailable
  | errConnectionFailed
  | errRemoteExecutionFailed
  | ctxCanceled
  | ctxDeadlineExceeded
  | errMsg (msg : String)
  | wrap (inner : GoErr) (msg : String)
deriving DecidableEq

/-- `errors.Is(e, t)`: walk the unwrap chain of `e` looking for `t`.
Sentinel comparison is value identity (pointer equality in Go). -/
def goErrorsIs (e t : GoErr) : Bool :=
  e == t ||
    match e with
    | .wrap inner _ => goErrorsIs inner t
    | _ => false

/-- `%v` rendering of an error: the full message text (the chain is lost). -/
def eString : GoErr → String
  | .errRemoteNotAvailable => "remote runtime not available"
  | .errConnectionFailed => "connection failed"
  | .errRemoteExecutionFailed => "remote execution failed"
  | .ctxCanceled => "context canceled"
  | .ctxDeadlineExceeded => "context deadline exceeded"
  | .errMsg m => m
  | .wrap inner m => eString inner ++ ": " ++ m

/-- `isRetryable` from src/remotehttp/client.go: nil is not retryable;
context cancellation and deadline expiry are not retryable; everything
else is. -/
def isRetryable : Option GoErr → Bool
  | none => false
  | some e => !(goErrorsIs e .ctxDeadlineExceeded || goErrorsIs e .ctxCanceled)

/-- Modelled from the spec: `remote.ExecuteResultPayload` lives in the core
`toolexec` repository (not under src/); per spec §3 it carries an opaque
result value, stdout text, stderr text, a duration in milliseconds and an
ordered list of tool-call records.  Text is modelled as `List Char`, the
value and the tool-call records as opaque data. -/
structure ExecuteResultPayload where
  value : Option String := none
  stdout : List Char := []
  stderr : List Char := []
  durationMillis : Int := 0
  toolCalls : List String := []
deriving DecidableEq

/-- Modelled from the spec: `remote.RemoteResponse` (core repository) is a
response envelope with an optional result field. -/
structure RemoteResponse where
  result : Option ExecuteResultPayload := none
deriving DecidableEq

/-- `fmt.Errorf("%w: retries exhausted", remote.ErrRemoteExecutionFailed)`,
the value built after the attempt loop in `doRequest`. -/
def retriesExhaustedErr : GoErr := .wrap .errRemoteExecutionFailed "retries exhausted"

/-- The attempt loop of `doRequest` (src/remotehttp/client.go), with an
explicit attempt counter in the result.  `exec i` is what
`executeRequest` returns on attempt `i`; `remaining` counts the loop
iterations still permitted by `attempt <= maxRetries` (so the loop body
runs exactly while `remaining > 0`).  The first component is the value
`doRequest` returns; the second is the number of attempts performed. -/
def doRequestAux (exec : Nat → Except GoErr RemoteResponse) (maxRetries : Nat) :
    Nat → Nat → Except GoErr RemoteResponse × Nat
  | 0, _ => (.error retriesExhaustedErr, 0)
  | remaining + 1, attempt =>
    match exec attempt with
    | .ok resp => (.ok resp, 1)
    | .error e =>
      if isRetryable (some e) = false ∨ attempt = maxRetries then (.error e, 1)
      else
        let r := doRequestAux exec maxRetries remaining (attempt + 1)
        (r.1, r.2 + 1)

/-- `doRequest`: run the attempt loop from attempt 0 with the full budget. -/
def doRequest (exec : Nat → Except GoErr RemoteResponse) (maxRetries : Nat) :
    Except GoErr RemoteResponse :=
  (doRequestAux exec maxRetries (maxRetries + 1) 0).1

/-- Number of attempts `doRequest` performs. -/
def doRequestAttempts (exec : Nat → Except GoErr RemoteResponse) (maxRetries : Nat) : Nat :=
  (doRequestAux exec maxRetries (maxRetries + 1) 0).2

/-- The `MaxRetries` normalisation in `NewClient`:
`if maxRetries <= 0 { maxRetries = 3 }`. -/
def normalizeMaxRetries (cfgMaxRetries : Int) : Int :=
  if cfgMaxRetries ≤ 0 then 3 else cfgMaxRetries

/-- An attempt result whose error is classified retryable. -/
def failsRetryable (exec : Nat → Except GoErr RemoteResponse) (i : Nat) : Prop :=
  ∃ e, exec i = .error e ∧ isRetryable (some e) = true

/-- `wrap`-shape test: is this error a `%w`-wrapper around another error? -/
def isWrapErr : GoErr → Bool
  | .wrap _ _ => true
  | _ => false

/-! ### SSE decoder (src/remotehttp, the `sseDecoder` file) -/

/-- A line of text is a list of characters (a `bufio.Scanner` line carries
no terminating newline). -/
abbrev Line := List Char

/-- The ASCII white-space characters trimmed by `strings.TrimSpace`
(the SSE wire format never carries the non-ASCII space code points). -/
def isSpaceChar (c : Char) : Bool :=
  c = ' ' || c = '\t' || c = '\n' || c = '\x0b' || c = '\x0c' || c = '\r'

/-- `strings.TrimSpace`: drop white space from both ends. -/
def trimSpace (s : Line) : Line :=
  ((s.dropWhile isSpaceChar).reverse.dropWhile isSpaceChar).reverse

/-- `strings.HasPrefix`: `pre` is a leading segment of `s`. -/
def hasPre : Line → Line → Bool
  | [], _ => true
  | _ :: _, [] => false
  | p :: ps, c :: cs => p == c && hasPre ps cs

/-- `strings.TrimPrefix`. -/
def trimPre (pre s : Line) : Line := if hasPre pre s then s.drop pre.length else s

/-- The literal `"event:"`. -/
def evPre : Line := "event:".data

/-- The literal `"data:"`. -/
def dataPre : Line := "data:".data

/-- `sseEvent`: a decoded (name, data) pair. -/
structure SseEvent where
  name : Line
  data : Line
deriving DecidableEq

/-- One `builder.WriteString` step of `next`: a `"\n"` separator is written
first exactly when the builder already holds something
(`builder.Len() > 0`). -/
def writeData (buf d : Line) : Line :=
  if buf.length > 0 then buf ++ '\n' :: d else buf ++ d

/-- The loop body of `sseDecoder.next`, carrying the pending event name and
the data builder.  `none` is `io.EOF`; `some (e, rest)` returns event `e`
with `rest` the lines the scanner has not yet consumed.  I/O errors of the
underlying reader are not modelled (a pure list of lines has none). -/
def nextLoop : List Line → Line → Line → Option (SseEvent × List Line)
  | [], name, buf =>
    if buf.length > 0 ∨ name ≠ [] then some (⟨name, buf⟩, []) else none
  | line :: rest, name, buf =>
    if line = [] then
      if buf.length = 0 ∧ name = [] then nextLoop rest name buf
      else some (⟨name, buf⟩, rest)
    else if hasPre evPre line then
      nextLoop rest (trimSpace (trimPre evPre line)) buf
    else if hasPre dataPre line then
      nextLoop rest name (writeData buf (trimSpace (trimPre dataPre line)))
    else nextLoop rest name buf

/-- `sseDecoder.next`: the loop starts each call with empty pending state. -/
def next (lines : List Line) : Option (SseEvent × List Line) :=
  nextLoop lines [] []

/-- Iterate `next` to exhaustion, with fuel.  `decodeAll` supplies enough
fuel for any input, since each successful `next` call consumes at least one
line (or ends the stream). -/
def decodeEvents : Nat → List Line → List SseEvent
  | 0, _ => []
  | fuel + 1, lines =>
    match next lines with
    | none => []
    | some (e, rest) => e :: decodeEvents fuel rest

/-- The full event sequence produced by successive `next` calls. -/
def decodeAll (lines : List Line) : List SseEvent :=
  decodeEvents (lines.length + 1) lines

/-! ### Stream merger (`readStream` in src/remotehttp/client.go) -/

/-- The zero `remote.ExecuteResultPayload` that `readStream` starts from. -/
def zeroPayload : ExecuteResultPayload := {}

/-- One iteration of the `switch event.Name` loop in `readStream`.
`parse` models `json.Unmarshal` of a `result` event's data into an
`ExecuteResultPayload` (`none` = parse error, which Go silently drops). -/
def mergeStep (parse : Line → Option ExecuteResultPayload)
    (result : ExecuteResultPayload) (event : SseEvent) :
    Except GoErr ExecuteResultPayload :=
  if event.name = "stdout".data then
    .ok { result with stdout := result.stdout ++ event.data }
  else if event.name = "stderr".data then
    .ok { result with stderr := result.stderr ++ event.data }
  else if event.name = "result".data then
    match parse event.data with
    | some payload =>
      .ok { payload with
            stdout := if payload.stdout = [] then result.stdout else payload.stdout
            stderr := if payload.stderr = [] then result.stderr else payload.stderr
            toolCalls := if payload.toolCalls = [] then result.toolCalls else payload.toolCalls }
    | none => .ok result
  else if event.name = "error".data then
    .error (.wrap .errRemoteExecutionFailed (String.mk event.data))
  else
    .ok result

/-- Fold an event sequence through `mergeStep`; an `error` event aborts the
fold with its error, exactly as the `return` inside `readStream`'s loop. -/
def mergeEvents (parse : Line → Option ExecuteResultPayload)
    (events : List SseEvent) : Except GoErr ExecuteResultPayload :=
  events.foldlM (mergeStep parse) zeroPayload

/-- `readStream`: decode the body lines and merge the resulting events. -/
def readStream (parse : Line → Option ExecuteResultPayload)
    (bodyLines : List Line) : Except GoErr ExecuteResultPayload :=
  mergeEvents parse (decodeAll bodyLines)

/-! ### Request signing and headers (`executeRequest` / `signRequest`) -/

/-- The message `signRequest` feeds to the HMAC: it writes the timestamp,
then the one-byte separator `"."`, then the payload bytes. -/
def signMessage (timestamp payload : String) : String :=
  timestamp ++ "." ++ payload

/-- The two headers `signRequest` sets.  `mac token msg` models the
base64-encoded HMAC-SHA256 of `msg` keyed by `token` (the cryptographic
primitive lives in Go's standard library and is kept abstract). -/
def signHeaders (mac : String → String → String)
    (token payload timestamp : String) : List (String × String) :=
  [("X-Toolruntime-Timestamp", timestamp),
   ("X-Toolruntime-Signature", mac token (signMessage timestamp payload))]

/-- The headers `executeRequest` attaches to the outgoing request, in the
order they are set: `Content-Type` always, `Accept` when streaming,
`Authorization` plus the signature pair exactly when `c.authToken != ""`. -/
def requestHeaders (mac : String → String → String)
    (authToken : String) (stream : Bool) (payload timestamp : String) :
    List (String × String) :=
  [("Content-Type", "application/json")]
    ++ (if stream then [("Accept", "text/event-stream")] else [])
    ++ (if authToken ≠ "" then
          ("Authorization", "Bearer " ++ authToken)
            :: signHeaders mac authToken payload timestamp
        else [])

/-- `http.Header.Get`: the value of the first header with the given name,
`none` when the header is absent. -/
def getHeader (headers : List (String × String)) (key : String) : Option String :=
  (headers.find? (fun p => p.1 == key)).map (fun p => p.2)

/-! ### Transport executor (`executeRequest`, response classification) -/

/-- `strings.Contains`. -/
def containsSub (sub : Line) : Line → Bool
  | [] => hasPre sub []
  | c :: rest => hasPre sub (c :: rest) || containsSub sub rest

/-- The network outcome of one attempt, as `executeRequest` observes it:
either `http.NewRequestWithContext` fails, or `httpClient.Do` fails with
some error (for a context canceled mid-attempt this is a `url.Error`
wrapping `context.Canceled`), or a response arrives with a status, a
`Content-Type`, a bounded body excerpt, the body lines (streaming path)
and the `json.Unmarshal` outcome of the buffered body. -/
inductive AttemptEnv where
  | buildErr (e : GoErr)
  | doErr (e : GoErr)
  | httpResp (status : Nat) (contentType : Line) (bodyExcerpt : String)
      (bodyLines : List Line) (jsonDecoded : Option RemoteResponse)

/-- `executeRequest` (src/remotehttp/client.go): classify one attempt's
outcome.  Every error is built with `fmt.Errorf("%w: ...", sentinel)`, so
only the sentinel stays in the unwrap chain; the underlying cause is
flattened into the message by `%v` (`eString`). -/
def executeRequest (stream : Bool)
    (parse : Line → Option ExecuteResultPayload)
    (env : AttemptEnv) : Except GoErr RemoteResponse :=
  match env with
  | .buildErr e => .error (.wrap .errConnectionFailed ("build request: " ++ eString e))
  | .doErr e => .error (.wrap .errConnectionFailed (eString e))
  | .httpResp status contentType bodyExcerpt bodyLines jsonDecoded =>
    if 500 ≤ status then
      .error (.wrap .errRemoteExecutionFailed
        ("server error " ++ toString status ++ ": " ++ bodyExcerpt))
    else if status < 200 ∨ 300 ≤ status then
      .error (.wrap .errRemoteExecutionFailed
        ("status " ++ toString status ++ ": " ++ bodyExcerpt))
    else if stream ∧ containsSub "text/event-stream".data contentType then
      match readStream parse bodyLines with
      | .ok payload => .ok { result := some payload }
      | .error e => .error e
    else
      match jsonDecoded with
      | some resp => .ok resp
      | none => .error (.wrap .errRemoteExecutionFailed "decode response")

/-! ### Concrete environments used in witnesses and counterexamples -/

/-- An attempt function whose every attempt fails with a distinct opaque
(retryable) error naming its attempt index. -/
def execFail0 : Nat → Except GoErr RemoteResponse := fun i => .error (.errMsg (Nat.repr i))

/-- What `httpClient.Do` returns when the context is canceled mid-attempt:
a `url.Error` whose unwrap chain reaches `context.Canceled`. -/
def canceledDoErr : GoErr := .wrap .ctxCanceled "Post"

/-- An attempt function in which every attempt observes the context
cancellation at the transport layer. -/
def execCanceled : Nat → Except GoErr RemoteResponse :=
  fun _ => executeRequest false (fun _ => none) (.doErr canceledDoErr)

/-! ### Retry coordinator lemmas -/

lemma doRequestAux_all_retryable (exec : Nat → Except GoErr RemoteResponse) (m : Nat)
    (hf : ∀ i, failsRetryable exec i) :
    ∀ r attempt, r + 1 + attempt = m + 1 →
      doRequestAux exec m (r + 1) attempt = (exec m, r + 1) := by
  intro r
  induction r with
  | zero =>
    intro attempt h
    have ha : attempt = m := by omega
    subst ha
    obtain ⟨e, he, _⟩ := hf attempt
    simp [doRequestAux, he]
  | succ r ih =>
    intro attempt h
    obtain ⟨e, he, hr⟩ := hf attempt
    have hne : attempt ≠ m := by omega
    have hrec := ih (attempt + 1) (by omega)
    rw [doRequestAux, he]
    simp [hr, hne, hrec]

/-- C1 (counterexample): with every attempt failing retryably and
`maxRetries = 2`, `doRequest` returns the final attempt's bare error —
not a wrapper, and its chain does not contain
`remote.ErrRemoteExecutionFailed` (the tag of the "retries exhausted"
error the claim predicts). -/
theorem c1_counterexample :
    doRequest execFail0 2 = .error (.errMsg "2")
    ∧ isWrapErr (.errMsg "2") = false
    ∧ goErrorsIs (.errMsg "2") .errRemoteExecutionFailed = false :=
  ⟨rfl, rfl, rfl⟩

/-- C1 (amended): when every attempt fails with a retryable error,
`doRequest` returns the final attempt's (index `maxRetries`) error
unchanged — no "retries exhausted" wrapper — after exactly
`maxRetries + 1` attempts. -/
theorem c1_final_error_unwrapped (exec : Nat → Except GoErr RemoteResponse) (m : Nat)
    (hf : ∀ i, failsRetryable exec i) :
    doRequest exec m = exec m ∧ doRequestAttempts exec m = m + 1 := by
  have h := doRequestAux_all_retryable exec m hf m 0 (by omega)
  exact ⟨congrArg Prod.fst h, congrArg Prod.snd h⟩

/-- Witness for C1's amended theorem at a concrete attempt function. -/
theorem c1_final_error_unwrapped_witness :
    doRequest execFail0 2 = .error (.errMsg "2") ∧ doRequestAttempts execFail0 2 = 3 := by
  have h := c1_final_error_unwrapped execFail0 2 (fun i => ⟨.errMsg (Nat.repr i), rfl, rfl⟩)
  exact ⟨h.1.trans rfl, h.2⟩

/-- C2 (code bug, evaluated at the failing input): a context cancellation
observed by `httpClient.Do` is rewrapped by `executeRequest` with
`fmt.Errorf("%w: %v", ErrConnectionFailed, err)`, so `context.Canceled`
leaves the unwrap chain, `isRetryable` classifies the failure as
retryable, a second attempt occurs, and the error finally returned is the
`ErrConnectionFailed` wrapper rather than the cancellation error. -/
theorem c2_cancellation_retried_bug :
    execCanceled 0 = .error (.wrap .errConnectionFailed "context canceled: Post")
    ∧ goErrorsIs (.wrap .errConnectionFailed "context canceled: Post") .ctxCanceled = false
    ∧ isRetryable (some (.wrap .errConnectionFailed "context canceled: Post")) = true
    ∧ doRequest execCanceled 1 = .error (.wrap .errConnectionFailed "context canceled: Post")
    ∧ doRequestAttempts execCanceled 1 = 2 :=
  ⟨rfl, rfl, rfl, rfl, rfl⟩

/-- C3 (counterexample): a configured `MaxRetries` of 0 (or negative) is
replaced by the default 3 in `NewClient`, so four attempts occur when all
attempts fail retryably — not the single attempt the claim predicts. -/
theorem c3_counterexample :
    normalizeMaxRetries 0 = 3 ∧ normalizeMaxRetries (-2) = 3
    ∧ doRequestAttempts execFail0 ((normalizeMaxRetries 0).toNat) = 4
    ∧ (4 : Nat) ≠ 1 := by
  refine ⟨rfl, rfl, rfl, by decide⟩

/-- C3 (amended): a configured maximum retry count ≤ 0 (zero or negative)
is replaced by the default 3, so — far from "exactly one attempt" — up to
four attempts occur, and on all-retryable failure the fourth attempt's
error is returned. -/
theorem c3_nonpositive_retries_default (c : Int) (hc : c ≤ 0)
    (exec : Nat → Except GoErr RemoteResponse) (hf : ∀ i, failsRetryable exec i) :
    normalizeMaxRetries c = 3
    ∧ doRequestAttempts exec ((normalizeMaxRetries c).toNat) = 4
    ∧ doRequest exec ((normalizeMaxRetries c).toNat) = exec 3 := by
  have hn : normalizeMaxRetries c = 3 := if_pos hc
  have h := doRequestAux_all_retryable exec 3 hf 3 0 (by omega)
  rw [hn]
  exact ⟨rfl, congrArg Prod.snd h, congrArg Prod.fst h⟩

/-- Witness for C3's amended theorem at concrete inputs. -/
theorem c3_nonpositive_retries_default_witness :
    normalizeMaxRetries (-1) = 3
    ∧ doRequestAttempts execFail0 ((normalizeMaxRetries (-1)).toNat) = 4
    ∧ doRequest execFail0 ((normalizeMaxRetries (-1)).toNat) = .error (.errMsg "3") := by
  have h := c3_nonpositive_retries_default (-1) (by decide) execFail0
    (fun i => ⟨.errMsg (Nat.repr i), rfl, rfl⟩)
  exact ⟨h.1, h.2.1, h.2.2.trans rfl⟩

/-! ### Authentication header theorems -/

/-- C4 (counterexample): with a credential configured, the outgoing request
carries no `X-Timestamp` and no `X-Signature` header; the signature pair
is named `X-Toolruntime-Timestamp` / `X-Toolruntime-Signature`. -/
theorem c4_counterexample :
    getHeader (requestHeaders (fun _ _ => "s") "tok" false "p" "t") "X-Timestamp" = none
    ∧ getHeader (requestHeaders (fun _ _ => "s") "tok" false "p" "t") "X-Signature" = none
    ∧ getHeader (requestHeaders (fun _ _ => "s") "tok" false "p" "t") "X-Toolruntime-Timestamp"
        = some "t"
    ∧ getHeader (requestHeaders (fun _ _ => "s") "tok" false "p" "t") "X-Toolruntime-Signature"
        = some "s" :=
  ⟨rfl, rfl, rfl, rfl⟩

/-- C4 (amended): authentication headers are attached exactly when a
credential token is configured — when unset, the request carries no
`Authorization` header and no timestamp/signature headers at all; when
set, it carries `Authorization: Bearer <token>` together with the
`X-Toolruntime-Timestamp` / `X-Toolruntime-Signature` pair, the signature
being the MAC of the timestamp-dot-payload message. -/
theorem c4_auth_headers (mac : String → String → String) (stream : Bool) (payload ts : String) :
    (getHeader (requestHeaders mac "" stream payload ts) "Authorization" = none
     ∧ getHeader (requestHeaders mac "" stream payload ts) "X-Toolruntime-Timestamp" = none
     ∧ getHeader (requestHeaders mac "" stream payload ts) "X-Toolruntime-Signature" = none
     ∧ getHeader (requestHeaders mac "" stream payload ts) "X-Timestamp" = none
     ∧ getHeader (requestHeaders mac "" stream payload ts) "X-Signature" = none)
    ∧ (∀ token, token ≠ "" →
       getHeader (requestHeaders mac token stream payload ts) "Authorization"
           = some ("Bearer " ++ token)
       ∧ getHeader (requestHeaders mac token stream payload ts) "X-Toolruntime-Timestamp"
           = some ts
       ∧ getHeader (requestHeaders mac token stream payload ts) "X-Toolruntime-Signature"
           = some (mac token (signMessage ts payload))) := by
  constructor
  · cases stream <;>
      simp [requestHeaders, getHeader, signHeaders, List.find?]
  · intro token htok
    rw [requestHeaders, if_pos htok]
    cases stream <;>
      simp [getHeader, signHeaders, List.find?]

/-- Witness for C4's amended theorem at concrete inputs. -/
theorem c4_auth_headers_witness :
    getHeader (requestHeaders (fun _ _ => "s") "" true "p" "t") "Authorization" = none
    ∧ getHeader (requestHeaders (fun _ _ => "s") "tok" true "p" "t") "Authorization"
        = some "Bearer tok" := by
  have h := c4_auth_headers (fun _ _ => "s") true "p" "t"
  exact ⟨h.1.1, ((h.2 "tok" (by decide)).1).trans rfl⟩

/-! ### SSE decoder lemmas -/

lemma writeData_nil (d : Line) : writeData [] d = d := rfl

lemma writeData_ne (buf d : Line) (h : buf ≠ []) : writeData buf d = buf ++ ('\n' :: d) := by
  cases buf with
  | nil => exact absurd rfl h
  | cons c cs => simp [writeData]

/-- `"\n"`-separator segments: `sepAll [d1, d2] = "\n" ++ d1 ++ "\n" ++ d2`. -/
def sepAll : List Line → Line
  | [] => []
  | d :: ds => ('\n' :: d) ++ sepAll ds

/-- Newline-join of data contents (`strings.Join(ds, "\n")`): the data an
SSE event carries when the builder receives exactly these contents. -/
def joinData : List Line → Line
  | [] => []
  | [d] => d
  | d :: ds => d ++ ('\n' :: joinData ds)

lemma joinData_cons (d : Line) (ds : List Line) : joinData (d :: ds) = d ++ sepAll ds := by
  induction ds generalizing d with
  | nil => simp [joinData, sepAll]
  | cons e es ih => simp [joinData, sepAll, ih e]

lemma joinData_ne (d : Line) (ds : List Line) (h : d ≠ []) : joinData (d :: ds) ≠ [] := by
  rw [joinData_cons]
  simp [h]

lemma joinData_length_pos (ds : List Line) (hne : ds ≠ []) (h : ∀ d ∈ ds, d ≠ []) :
    (joinData ds).length > 0 := by
  cases ds with
  | nil => exact absurd rfl hne
  | cons d es =>
    exact List.length_pos.mpr (joinData_ne d es (h d (by simp)))

lemma foldl_writeData_ne (ds : List Line) : ∀ buf, buf ≠ [] →
    List.foldl writeData buf ds = buf ++ sepAll ds := by
  induction ds with
  | nil => intro buf _; simp [sepAll]
  | cons d ds ih =>
    intro buf hbuf
    rw [List.foldl_cons, writeData_ne buf d hbuf, ih (buf ++ ('\n' :: d)) (by simp)]
    simp [sepAll]

lemma foldl_writeData_nil (ds : List Line) (h : ∀ d ∈ ds, d ≠ []) :
    List.foldl writeData [] ds = joinData ds := by
  cases ds with
  | nil => rfl
  | cons d ds =>
    rw [List.foldl_cons, writeData_nil, joinData_cons,
      foldl_writeData_ne ds d (h d (by simp))]

lemma nextLoop_data_step (d : Line) (L : List Line) (name buf : Line) :
    nextLoop ((dataPre ++ d) :: L) name buf
      = nextLoop L name (writeData buf (trimSpace d)) := rfl

lemma nextLoop_event_step (n : Line) (L : List Line) (name buf : Line) :
    nextLoop ((evPre ++ n) :: L) name buf = nextLoop L (trimSpace n) buf := rfl

lemma nextLoop_blank_skip (L : List Line) : nextLoop ([] :: L) [] [] = nextLoop L [] [] := rfl

lemma next_nil : next ([] : List Line) = none := rfl

lemma nextLoop_blank_flush (L : List Line) (name buf : Line)
    (h : ¬(buf.length = 0 ∧ name = [])) :
    nextLoop ([] :: L) name buf = some (⟨name, buf⟩, L) := by
  rw [nextLoop, if_pos rfl, if_neg h]

lemma nextLoop_eof_flush (name buf : Line) (h : buf.length > 0 ∨ name ≠ []) :
    nextLoop [] name buf = some (⟨name, buf⟩, []) := by
  rw [nextLoop, if_pos h]

lemma nextLoop_other (line : Line) (L : List Line) (name buf : Line)
    (hne : line ≠ []) (hev : hasPre evPre line = false) (hdata : hasPre dataPre line = false) :
    nextLoop (line :: L) name buf = nextLoop L name buf := by
  rw [nextLoop, if_neg hne, if_neg (by simp [hev]), if_neg (by simp [hdata])]

lemma nextLoop_dataLines (ds : List Line) (hds : ∀ d ∈ ds, trimSpace d = d) :
    ∀ (L : List Line) (name buf : Line),
      nextLoop (ds.map (fun d => dataPre ++ d) ++ L) name buf
        = nextLoop L name (List.foldl writeData buf ds) := by
  induction ds with
  | nil => intro L name buf; rfl
  | cons d ds ih =>
    intro L name buf
    have hd := hds d (by simp)
    have htail : ∀ x ∈ ds, trimSpace x = x := fun x hx => hds x (by simp [hx])
    rw [List.map_cons, List.cons_append, nextLoop_data_step, hd,
      ih htail L name (writeData buf d), List.foldl_cons]

/-! ### Frames and their wire rendering -/

/-- One SSE frame as the server writes it: an `event:` name line followed
by `data:` content lines. -/
structure Frame where
  name : Line
  dataLines : List Line

/-- A well-formed frame: the name and the data contents carry no
surrounding white space (so trimming does not alter them), every data
content is nonempty, and the frame accumulates something (a name or at
least one data line). -/
def wfFrame (f : Frame) : Prop :=
  trimSpace f.name = f.name
    ∧ (∀ d ∈ f.dataLines, trimSpace d = d ∧ d ≠ [])
    ∧ (f.name ≠ [] ∨ f.dataLines ≠ [])

instance (f : Frame) : Decidable (wfFrame f) := by
  unfold wfFrame
  infer_instance

/-- The lines of one frame on the wire (without the terminating blank). -/
def renderFrame (f : Frame) : List Line :=
  (evPre ++ f.name) :: f.dataLines.map (fun d => dataPre ++ d)

/-- The event the decoder should produce for one frame. -/
def eventOf (f : Frame) : SseEvent := ⟨f.name, joinData f.dataLines⟩

/-- Render a frame sequence, every frame terminated by a blank line. -/
def renderT : List Frame → List Line
  | [] => []
  | f :: fs => renderFrame f ++ ([] :: renderT fs)

/-- Render a frame sequence whose final frame is unterminated (the stream
ends without a trailing blank line). -/
def renderU : List Frame → List Line
  | [] => []
  | [f] => renderFrame f
  | f :: fs => renderFrame f ++ ([] :: renderU fs)

lemma next_frame (f : Frame) (hf : wfFrame f) (L : List Line) :
    next (renderFrame f ++ ([] :: L)) = some (eventOf f, L) := by
  obtain ⟨hname, hdata, hsome⟩ := hf
  have hjoin := foldl_writeData_nil f.dataLines (fun d hd => (hdata d hd).2)
  rw [next, renderFrame, List.cons_append, nextLoop_event_step, hname,
    nextLoop_dataLines f.dataLines (fun d hd => (hdata d hd).1), hjoin]
  refine nextLoop_blank_flush L f.name (joinData f.dataLines) ?_
  rcases hsome with hn | hd
  · exact fun hc => hn hc.2
  · intro hc
    have hp := joinData_length_pos f.dataLines hd (fun d hdm => (hdata d hdm).2)
    omega

lemma nextLoop_rest_le (lines : List Line) : ∀ (name buf : Line) (e : SseEvent)
    (rest : List Line), nextLoop lines name buf = some (e, rest) →
    rest.length ≤ lines.length := by
  induction lines with
  | nil =>
    intro name buf e rest h
    rw [nextLoop] at h
    split_ifs at h
    · injection h with hp
      injection hp with h1 h2
      subst h2
      simp
  | cons line ls ih =>
    intro name buf e rest h
    rw [nextLoop] at h
    split_ifs at h with h1 h2 h3 h4
    · exact (ih name buf e rest h).trans (by simp)
    · injection h with hp
      injection hp with h1 h2
      subst h2
      simp
    · exact (ih _ buf e rest h).trans (by simp)
    · exact (ih name _ e rest h).trans (by simp)
    · exact (ih name buf e rest h).trans (by simp)

lemma next_shrinks (lines : List Line) (e : SseEvent) (rest : List Line)
    (h : next lines = some (e, rest)) : rest.length < lines.length := by
  cases lines with
  | nil => exact absurd h (by rw [next_nil]; simp)
  | cons line ls =>
    rw [next, nextLoop] at h
    split_ifs at h with h1 h2 h3 h4
    · exact Nat.lt_succ_of_le (nextLoop_rest_le ls [] [] e rest h)
    · injection h with hp
      injection hp with h1 h2
      subst h2
      simp
    · exact Nat.lt_succ_of_le (nextLoop_rest_le ls _ [] e rest h)
    · exact Nat.lt_succ_of_le (nextLoop_rest_le ls [] _ e rest h)
    · exact Nat.lt_succ_of_le (nextLoop_rest_le ls [] [] e rest h)

lemma decodeEvents_stable : ∀ (fuelA : Nat) (fuelB : Nat) (lines : List Line),
    lines.length < fuelA → lines.length < fuelB →
    decodeEvents fuelA lines = decodeEvents fuelB lines := by
  intro fuelA
  induction fuelA with
  | zero => intro fuelB lines h _; exact absurd h (Nat.not_lt_zero _)
  | succ fuelA ih =>
    intro fuelB lines hA hB
    cases fuelB with
    | zero => exact absurd hB (Nat.not_lt_zero _)
    | succ fuelB =>
      rw [decodeEvents, decodeEvents]
      cases hn : next lines with
      | none => rfl
      | some p =>
        obtain ⟨e, rest⟩ := p
        have hlt := next_shrinks lines e rest hn
        show e :: decodeEvents fuelA rest = e :: decodeEvents fuelB rest
        rw [ih fuelB rest (by omega) (by omega)]

lemma decodeAll_cons (lines rest : List Line) (e : SseEvent)
    (h : next lines = some (e, rest)) :
    decodeAll lines = e :: decodeAll rest := by
  rw [decodeAll, decodeEvents, h]
  show e :: decodeEvents lines.length rest = e :: decodeAll rest
  rw [decodeEvents_stable lines.length (rest.length + 1) rest
    (next_shrinks lines e rest h) (Nat.lt_succ_self _), decodeAll]

lemma next_frame_eof (f : Frame) (hf : wfFrame f) :
    next (renderFrame f) = some (eventOf f, []) := by
  obtain ⟨hname, hdata, hsome⟩ := hf
  have hjoin := foldl_writeData_nil f.dataLines (fun d hd => (hdata d hd).2)
  have hrw : f.dataLines.map (fun d => dataPre ++ d)
      = f.dataLines.map (fun d => dataPre ++ d) ++ [] := by simp
  rw [next, renderFrame, hrw, nextLoop_event_step, hname,
    nextLoop_dataLines f.dataLines (fun d hd => (hdata d hd).1), hjoin]
  refine nextLoop_eof_flush f.name (joinData f.dataLines) ?_
  rcases hsome with hn | hd
  · exact Or.inr hn
  · exact Or.inl (joinData_length_pos f.dataLines hd (fun d hdm => (hdata d hdm).2))

lemma decodeAll_renderT : ∀ (frames : List Frame), (∀ f ∈ frames, wfFrame f) →
    decodeAll (renderT frames) = frames.map eventOf := by
  intro frames
  induction frames with
  | nil => intro _; rfl
  | cons f fs ih =>
    intro h
    have hf := h f (by simp)
    have hfs : ∀ g ∈ fs, wfFrame g := fun g hg => h g (by simp [hg])
    have hnext : next (renderT (f :: fs)) = some (eventOf f, renderT fs) := by
      rw [renderT]
      exact next_frame f hf (renderT fs)
    rw [decodeAll_cons _ _ _ hnext, ih hfs, List.map_cons]

lemma decodeAll_renderU : ∀ (frames : List Frame), (∀ f ∈ frames, wfFrame f) →
    decodeAll (renderU frames) = frames.map eventOf := by
  intro frames
  induction frames with
  | nil => intro _; rfl
  | cons f fs ih =>
    intro h
    have hf := h f (by simp)
    have hfs : ∀ g ∈ fs, wfFrame g := fun g hg => h g (by simp [hg])
    cases fs with
    | nil =>
      have hnext : next (renderU [f]) = some (eventOf f, []) := next_frame_eof f hf
      rw [decodeAll_cons _ _ _ hnext]
      rfl
    | cons g gs =>
      have hnext : next (renderU (f :: g :: gs)) = some (eventOf f, renderU (g :: gs)) := by
        rw [show renderU (f :: g :: gs) = renderFrame f ++ ([] :: renderU (g :: gs)) from rfl]
        exact next_frame f hf (renderU (g :: gs))
      rw [decodeAll_cons _ _ _ hnext, ih hfs]
      rfl

/-- C6: the decoder emits the events of a well-formed frame sequence in
exactly the order the frames appear on the wire; a final unterminated
frame (no trailing blank line) is still emitted as a final event before
end-of-stream; with nothing pending, end-of-stream is signaled directly
(`next` of an exhausted stream is `none`). -/
theorem c6_decoder_order (frames : List Frame) (h : ∀ f ∈ frames, wfFrame f) :
    decodeAll (renderT frames) = frames.map eventOf
    ∧ decodeAll (renderU frames) = frames.map eventOf
    ∧ next [] = none :=
  ⟨decodeAll_renderT frames h, decodeAll_renderU frames h, rfl⟩

/-- A concrete two-frame sequence used in C6's witness. -/
def framesW : List Frame :=
  [⟨"stdout".data, ["hi".data]⟩, ⟨"result".data, ["r1".data, "r2".data]⟩]

/-- Witness for C6 at a concrete frame sequence. -/
theorem c6_decoder_order_witness :
    decodeAll (renderT framesW) = framesW.map eventOf
    ∧ decodeAll (renderU framesW) = framesW.map eventOf
    ∧ next [] = none :=
  c6_decoder_order framesW (by decide)

/-- C7 (counterexample): in the frame `data:` `data:x` (blank), the first
`data:` line's trimmed content is empty, so the decoder inserts no newline
separator between the two consecutive `data:` lines: the emitted data is
`"x"`, not the newline-join `"\nx"` the claim prescribes. -/
theorem c7_counterexample :
    next ["data:".data, "data:x".data, []] = some (⟨[], "x".data⟩, [])
    ∧ joinData [trimSpace (trimPre dataPre "data:".data),
        trimSpace (trimPre dataPre "data:x".data)] = '\n' :: "x".data
    ∧ "x".data ≠ '\n' :: "x".data := by
  refine ⟨rfl, rfl, by decide⟩

/-- C7 (amended): within one frame, a `data:` line's content is trimmed of
the prefix and surrounding white space and written to the data buffer with
a newline separator inserted exactly when the buffer is already nonempty
(so leading empty contents produce no separator); a line that is neither
`event:`- nor `data:`-prefixed is ignored; a blank line flushes the
pending (name, data) pair unless nothing was accumulated (empty buffer and
unset name), in which case it produces no event. -/
theorem c7_frame_line_handling :
    (∀ (d : Line) (L : List Line) (name buf : Line),
       nextLoop ((dataPre ++ d) :: L) name buf
         = nextLoop L name (writeData buf (trimSpace d)))
    ∧ (∀ (buf d : Line), writeData buf d = if buf = [] then d else buf ++ ('\n' :: d))
    ∧ (∀ (line : Line) (L : List Line) (name buf : Line),
       line ≠ [] → hasPre evPre line = false → hasPre dataPre line = false →
       nextLoop (line :: L) name buf = nextLoop L name buf)
    ∧ (∀ (L : List Line) (name buf : Line), ¬(buf.length = 0 ∧ name = []) →
       nextLoop ([] :: L) name buf = some (⟨name, buf⟩, L))
    ∧ (∀ (L : List Line), nextLoop ([] :: L) [] [] = nextLoop L [] []) := by
  refine ⟨nextLoop_data_step, ?_, nextLoop_other, nextLoop_blank_flush, nextLoop_blank_skip⟩
  intro buf d
  cases buf with
  | nil => rw [if_pos rfl]; exact writeData_nil d
  | cons c cs => rw [if_neg (by simp)]; exact writeData_ne (c :: cs) d (by simp)

/-- Witness for C7's amended theorem at concrete lines. -/
theorem c7_frame_line_handling_witness :
    nextLoop ((dataPre ++ " hi".data) :: [[]]) [] []
      = nextLoop [[]] [] (writeData [] (trimSpace " hi".data))
    ∧ writeData "a".data "b".data = (if "a".data = [] then "b".data else "a".data ++ ('\n' :: "b".data))
    ∧ nextLoop [": keepalive".data] [] "x".data = nextLoop [] [] "x".data
    ∧ nextLoop [[]] "n".data [] = some (⟨"n".data, []⟩, [])
    ∧ nextLoop [[]] [] [] = nextLoop [] [] [] := by
  have h := c7_frame_line_handling
  exact ⟨h.1 " hi".data [[]] [] [], h.2.1 "a".data "b".data,
    h.2.2.1 ": keepalive".data [] [] "x".data (by decide) (by decide) (by decide),
    h.2.2.2.1 [] "n".data [] (by decide), h.2.2.2.2 []⟩

/-- C10: a frame consisting of only an `event:` name line — terminated by a
blank line or by end-of-stream — is emitted as an event carrying that name
with empty data; a pending nonempty name alone counts as accumulated. -/
theorem c10_name_only_frame (n : Line) (L : List Line)
    (h1 : trimSpace n = n) (h2 : n ≠ []) :
    next ((evPre ++ n) :: ([] :: L)) = some (⟨n, []⟩, L)
    ∧ next [evPre ++ n] = some (⟨n, []⟩, []) := by
  constructor
  · rw [next, nextLoop_event_step, h1]
    exact nextLoop_blank_flush L n [] (fun hc => h2 hc.2)
  · rw [next, nextLoop_event_step, h1]
    exact nextLoop_eof_flush n [] (Or.inr h2)

/-- Witness for C10 at a concrete name. -/
theorem c10_name_only_frame_witness :
    next ((evPre ++ "ping".data) :: ([] :: [])) = some (⟨"ping".data, []⟩, [])
    ∧ next [evPre ++ "ping".data] = some (⟨"ping".data, []⟩, []) :=
  c10_name_only_frame "ping".data [] (by decide) (by decide)

/-! ### Stream merger lemmas -/

lemma mergeStep_stdout (parse : Line → Option ExecuteResultPayload)
    (acc : ExecuteResultPayload) (d : Line) :
    mergeStep parse acc ⟨"stdout".data, d⟩ = .ok { acc with stdout := acc.stdout ++ d } := rfl

lemma mergeStep_result (parse : Line → Option ExecuteResultPayload)
    (acc : ExecuteResultPayload) (d : Line) :
    mergeStep parse acc ⟨"result".data, d⟩
      = match parse d with
        | some payload =>
          .ok { payload with
                stdout := if payload.stdout = [] then acc.stdout else payload.stdout
                stderr := if payload.stderr = [] then acc.stderr else payload.stderr
                toolCalls := if payload.toolCalls = [] then acc.toolCalls else payload.toolCalls }
        | none => .ok acc := rfl

lemma mergeFold_ok (parse : Line → Option ExecuteResultPayload)
    (acc acc2 : ExecuteResultPayload) (e : SseEvent) (es : List SseEvent)
    (h : mergeStep parse acc e = .ok acc2) :
    List.foldlM (mergeStep parse) acc (e :: es) = List.foldlM (mergeStep parse) acc2 es := by
  rw [List.foldlM_cons, h]
  rfl

lemma mergeFold_err (parse : Line → Option ExecuteResultPayload)
    (acc : ExecuteResultPayload) (e : SseEvent) (es : List SseEvent) (err : GoErr)
    (h : mergeStep parse acc e = .error err) :
    List.foldlM (mergeStep parse) acc (e :: es) = .error err := by
  rw [List.foldlM_cons, h]
  rfl

/-- C5: a successfully parsed `result` event replaces the accumulation,
backfilling each of its empty/unset stdout, stderr and tool-call fields
from the previously accumulated values; in particular merging
stdout "a", stdout "b", then a `result` whose payload has empty stdout
yields stdout "ab". -/
theorem c5_merge_backfill (parse : Line → Option ExecuteResultPayload)
    (d : Line) (p : ExecuteResultPayload) (hp : parse d = some p) :
    (p.stdout = [] →
       mergeEvents parse [⟨"stdout".data, "a".data⟩, ⟨"stdout".data, "b".data⟩,
           ⟨"result".data, d⟩]
         = .ok { p with stdout := "ab".data })
    ∧ (∀ acc, mergeStep parse acc ⟨"result".data, d⟩
         = .ok { p with
                 stdout := if p.stdout = [] then acc.stdout else p.stdout
                 stderr := if p.stderr = [] then acc.stderr else p.stderr
                 toolCalls := if p.toolCalls = [] then acc.toolCalls else p.toolCalls }) := by
  have hstep : ∀ acc, mergeStep parse acc ⟨"result".data, d⟩
      = .ok { p with
              stdout := if p.stdout = [] then acc.stdout else p.stdout
              stderr := if p.stderr = [] then acc.stderr else p.stderr
              toolCalls := if p.toolCalls = [] then acc.toolCalls else p.toolCalls } := by
    intro acc
    rw [mergeStep_result, hp]
  refine ⟨?_, hstep⟩
  intro hstd
  rw [mergeEvents,
    mergeFold_ok parse _ _ _ _ (mergeStep_stdout parse zeroPayload "a".data),
    mergeFold_ok parse _ _ _ _ (mergeStep_stdout parse
      { zeroPayload with stdout := zeroPayload.stdout ++ "a".data } "b".data),
    mergeFold_ok parse _ _ _ _ (hstep _)]
  by_cases hs : p.stderr = [] <;> by_cases ht : p.toolCalls = [] <;>
    simp [hstd, hs, ht, zeroPayload] <;> rfl

/-- Witness for C5 at a concrete parse function and payload. -/
def parseR : Line → Option ExecuteResultPayload :=
  fun d => if d = "R".data then some { stderr := "e".data, durationMillis := 5 } else none

/-- Witness for C5's theorem. -/
theorem c5_merge_backfill_witness :
    mergeEvents parseR [⟨"stdout".data, "a".data⟩, ⟨"stdout".data, "b".data⟩,
        ⟨"result".data, "R".data⟩]
      = .ok { stdout := "ab".data, stderr := "e".data, durationMillis := 5 }
    ∧ mergeStep parseR zeroPayload ⟨"result".data, "R".data⟩
      = .ok { stderr := "e".data, durationMillis := 5 } := by
  have h := c5_merge_backfill parseR "R".data { stderr := "e".data, durationMillis := 5 } rfl
  exact ⟨h.1 rfl, (h.2 zeroPayload).trans rfl⟩

/-- C8: a `result` event whose data fails to parse is dropped silently —
the accumulated state is unchanged, the merge does not abort, and the
merge of any event sequence containing such an event equals the merge of
the sequence with the event removed. -/
theorem c8_invalid_result_dropped (parse : Line → Option ExecuteResultPayload)
    (d : Line) (hp : parse d = none) :
    (∀ acc, mergeStep parse acc ⟨"result".data, d⟩ = .ok acc)
    ∧ (∀ pre post, mergeEvents parse (pre ++ ⟨"result".data, d⟩ :: post)
         = mergeEvents parse (pre ++ post)) := by
  have hstep : ∀ acc, mergeStep parse acc ⟨"result".data, d⟩ = .ok acc := by
    intro acc
    rw [mergeStep_result, hp]
  refine ⟨hstep, ?_⟩
  have key : ∀ (pre : List SseEvent) (acc : ExecuteResultPayload) (post : List SseEvent),
      List.foldlM (mergeStep parse) acc (pre ++ ⟨"result".data, d⟩ :: post)
        = List.foldlM (mergeStep parse) acc (pre ++ post) := by
    intro pre
    induction pre with
    | nil =>
      intro acc post
      rw [List.nil_append, List.nil_append, mergeFold_ok parse acc acc _ post (hstep acc)]
    | cons e pre ih =>
      intro acc post
      rw [List.cons_append, List.cons_append]
      cases hm : mergeStep parse acc e with
      | ok acc2 =>
        rw [mergeFold_ok parse acc acc2 e _ hm, mergeFold_ok parse acc acc2 e _ hm, ih acc2 post]
      | error err =>
        rw [mergeFold_err parse acc e _ err hm, mergeFold_err parse acc e _ err hm]
  intro pre post
  rw [mergeEvents, mergeEvents, key pre zeroPayload post]

/-- A parse function that accepts nothing, for C8's witness. -/
def parseNone : Line → Option ExecuteResultPayload := fun _ => none

/-- Witness for C8's theorem. -/
theorem c8_invalid_result_dropped_witness :
    mergeStep parseNone zeroPayload ⟨"result".data, "bad".data⟩ = .ok zeroPayload
    ∧ mergeEvents parseNone
        [⟨"stdout".data, "a".data⟩, ⟨"result".data, "bad".data⟩, ⟨"stdout".data, "b".data⟩]
      = mergeEvents parseNone [⟨"stdout".data, "a".data⟩, ⟨"stdout".data, "b".data⟩] := by
  have h := c8_invalid_result_dropped parseNone "bad".data rfl
  exact ⟨h.1 zeroPayload,
    h.2 [⟨"stdout".data, "a".data⟩] [⟨"stdout".data, "b".data⟩]⟩

end Remotehttp
